import Mathlib

/-!
# Verification of the `IonTrapSimulator` core of `ion-trap-visualizer`

Shallow embedding of the numeric kernel of `src/src/IonTrapVisualizer.tsx`
(the `IonTrapSimulator` class: constructor, `calculateAx`, `calculateQx`,
`calculateForceX`, `calculateForceY`, `simulate`, `isStable`).

Modelling choices:
* JavaScript `number` arithmetic is embedded as exact rational arithmetic (`ℚ`).
  All numeric literals of the source are exact decimals, hence rationals.
* `Math.cos` is an implementation-approximated transcendental; it is modelled as
  an abstract coefficient function `cosFn : ℚ → ℚ` carried by the simulator.
  None of the verified properties depend on its values.
* JavaScript's `a || b` defaulting on numbers (`b` substituted when `a` is
  absent or `0`) is `jsOr`.
* The `while (t < t_max)` loop is a fuel-bounded recursion `simLoop`; `simulate`
  supplies fuel `⌈t_max / dt⌉₊ + 1`, which for `dt > 0` is strictly more than
  the number of iterations the guard permits, so the guard (not the fuel)
  terminates the loop, exactly as in the source.
* The mutable instance field `lastStablePosition` is threaded explicitly:
  `simulate` returns the trajectory together with the updated simulator.
-/

namespace IonTrap

/-- Elementary charge (source: private field `e = 1.60217663e-19`). -/
def e : ℚ := 1.60217663e-19

/-- Ion mass (source: private field `m = 1.67262192e-27`). -/
def m : ℚ := 1.67262192e-27

/-- Trap characteristic radius (source: private field `r0 = 1e-2`). -/
def r0 : ℚ := 1e-2

/-- One recorded trace point (source: the anonymous
`{ t: number; x: number; y: number; stable: boolean }` record). -/
structure TrajectoryPoint where
  t : ℚ
  x : ℚ
  y : ℚ
  stable : Bool
  deriving DecidableEq, Repr, Inhabited

/-- Constructor argument record `{ U?: number; V?: number; omega?: number }`. -/
structure TrapParams where
  U : Option ℚ
  V : Option ℚ
  omega : Option ℚ
  deriving DecidableEq, Repr

/-- `simulate` argument record `{ x?: number; y?: number; vx?: number; vy?: number }`. -/
structure InitialConditions where
  x : Option ℚ
  y : Option ℚ
  vx : Option ℚ
  vy : Option ℚ
  deriving DecidableEq, Repr

/-- JavaScript `a || b` on an optional numeric value: the default `d` is
substituted when the value is absent or (falsy) zero. -/
def jsOr (v : Option ℚ) (d : ℚ) : ℚ :=
  match v with
  | none => d
  | some x => if x = 0 then d else x

/-- Source method `calculateAx` (as a function of the fields it reads). -/
def calculateAx (U omega : ℚ) : ℚ :=
  8 * e * U / (m * r0 * r0 * omega * omega)

/-- Source method `calculateQx` (as a function of the fields it reads). -/
def calculateQx (V omega : ℚ) : ℚ :=
  -4 * e * V / (m * r0 * r0 * omega * omega)

/-- The simulator state after construction: parameters, derived Mathieu
coefficients, the mutable `lastStablePosition` field, and the cosine model. -/
structure IonTrapSimulator where
  U : ℚ
  V : ℚ
  omega : ℚ
  ax : ℚ
  qx : ℚ
  ay : ℚ
  qy : ℚ
  lastStablePosition : Option (ℚ × ℚ)
  cosFn : ℚ → ℚ

/-- Source constructor: `U = params.U || 0`, `V = params.V || 0`,
`omega = params.omega || 1e6`, then the derived coefficients
`ax, qx, ay = -ax, qy = -qx`; `lastStablePosition` initialized to `null`. -/
def mkSimulator (cosFn : ℚ → ℚ) (params : TrapParams) : IonTrapSimulator :=
  let U := jsOr params.U 0
  let V := jsOr params.V 0
  let omega := jsOr params.omega 1e6
  let ax := calculateAx U omega
  let qx := calculateQx V omega
  { U := U, V := V, omega := omega
    ax := ax, qx := qx, ay := -ax, qy := -qx
    lastStablePosition := none, cosFn := cosFn }

/-- Source method `calculateForceX`. -/
def calculateForceX (s : IonTrapSimulator) (x t : ℚ) : ℚ :=
  -(2 * e / (r0 * r0)) * (s.U + s.V * s.cosFn (s.omega * t)) * x

/-- Source method `calculateForceY`. -/
def calculateForceY (s : IonTrapSimulator) (y t : ℚ) : ℚ :=
  (2 * e / (r0 * r0)) * (s.U + s.V * s.cosFn (s.omega * t)) * y

/-- The mutable kinematic state of one run of the integration loop. -/
structure Kin where
  x : ℚ
  y : ℚ
  vx : ℚ
  vy : ℚ
  t : ℚ
  deriving DecidableEq, Repr

/-- One pass of the loop body's kinematic updates, in source order:
forces at the current position and time, accelerations, `vx += ax*dt`,
`vy += ay*dt`, `x += vx*dt`, `y += vy*dt`, `t += dt`. -/
def bodyStep (s : IonTrapSimulator) (dt : ℚ) (k : Kin) : Kin :=
  let fx := calculateForceX s k.x k.t
  let fy := calculateForceY s k.y k.t
  let ax := fx / m
  let ay := fy / m
  let vx := k.vx + ax * dt
  let vy := k.vy + ay * dt
  let x := k.x + vx * dt
  let y := k.y + vy * dt
  { x := x, y := y, vx := vx, vy := vy, t := k.t + dt }

/-- `trajectory[trajectory.length - 1].stable = false`:
mark the last element of the list unstable. -/
def markLastUnstable : List TrajectoryPoint → List TrajectoryPoint
  | [] => []
  | [p] => [{ p with stable := false }]
  | p :: q :: ps => p :: markLastUnstable (q :: ps)

/-- The `{x, y}` view of a trace point, as stored into `lastStablePosition`
(the source stores the point object under the `{x, y}` type). -/
def posOf (p : TrajectoryPoint) : ℚ × ℚ := (p.x, p.y)

/-- The `while (t < t_max)` integration loop, fuel-bounded.  Per iteration,
in source order: guard check; kinematic updates (`bodyStep`); record the point
`{t: t*1e6, x: x*1e3, y: y*1e3, stable: true}` (with the pre-advance `t` and
post-update position); on `|x| > r0 || |y| > r0` set
`lastStablePosition = trajectory[max 0 (length - 2)]` (Nat subtraction is the
`Math.max(0, ·)`), mark the last point unstable and break. -/
def simLoop (s : IonTrapSimulator) (t_max dt : ℚ) :
    ℕ → Kin → List TrajectoryPoint → List TrajectoryPoint × Option (ℚ × ℚ)
  | 0, _, trajectory => (trajectory, none)
  | fuel + 1, k, trajectory =>
    if k.t < t_max then
      let k' := bodyStep s dt k
      let point : TrajectoryPoint :=
        { t := k.t * 1e6, x := k'.x * 1e3, y := k'.y * 1e3, stable := true }
      let trajectory' := trajectory ++ [point]
      if |k'.x| > r0 ∨ |k'.y| > r0 then
        (markLastUnstable trajectory',
         some (posOf (trajectory'.getD (trajectory'.length - 2) point)))
      else
        simLoop s t_max dt fuel k' trajectory'
    else (trajectory, none)

/-- Fuel supplied to `simLoop`: one more than the number of iterations the
guard can permit when `dt > 0`, so the guard alone controls termination. -/
def simFuel (t_max dt : ℚ) : ℕ := ⌈t_max / dt⌉₊ + 1

/-- The initial kinematic state of `simulate`:
`x = ic.x || 1e-3`, `y = ic.y || 1e-3`, `vx = ic.vx || 0`, `vy = ic.vy || 0`,
`t = 0`. -/
def initKin (ic : InitialConditions) : Kin :=
  { x := jsOr ic.x 1e-3, y := jsOr ic.y 1e-3
    vx := jsOr ic.vx 0, vy := jsOr ic.vy 0, t := 0 }

/-- Source method `simulate`: reset `lastStablePosition` to `null`, run the
loop from the defaulted initial conditions, return the trajectory and the
simulator with its updated `lastStablePosition` field. -/
def simulate (s : IonTrapSimulator) (ic : InitialConditions) (t_max dt : ℚ) :
    List TrajectoryPoint × IonTrapSimulator :=
  let r := simLoop s t_max dt (simFuel t_max dt) (initKin ic) []
  (r.1, { s with lastStablePosition := r.2 })

/-- Source method `isStable`: the analytic Mathieu test on both axes
conjoined with the empirical test on `lastStablePosition`. -/
def isStable (s : IonTrapSimulator) : Bool :=
  let stable_x := decide (|s.qx| < 0.908) && decide (|s.ax| < 0.237)
  let stable_y := decide (|s.qy| < 0.908) && decide (|s.ay| < 0.237)
  let theoreticallyStable := stable_x && stable_y
  let practicallyStable :=
    match s.lastStablePosition with
    | none => true
    | some p => decide (|p.1 / 1e3| < r0 * 0.8) && decide (|p.2 / 1e3| < r0 * 0.8)
  theoreticallyStable && practicallyStable

/-- A recorded trace point whose (mm-scaled) position lies outside the trap
boundary: the image under recording of the loop's escape condition
`|x| > r0 ∨ |y| > r0`. -/
def escapedPoint (p : TrajectoryPoint) : Prop :=
  |p.x| > r0 * 1e3 ∨ |p.y| > r0 * 1e3

instance (p : TrajectoryPoint) : Decidable (escapedPoint p) := by
  unfold escapedPoint; infer_instance

/-! ## Concrete instances used by witnesses -/

/-- A concrete cosine model (the claims are independent of its values). -/
def zeroCos : ℚ → ℚ := fun _ => 0

/-- Constructor call with no parameters supplied. -/
def noParams : TrapParams := ⟨none, none, none⟩

/-- `simulate` call with no initial conditions supplied. -/
def noIC : InitialConditions := ⟨none, none, none, none⟩

/-- Zero-voltage simulator: forces vanish, a run from rest never escapes. -/
def baseSim : IonTrapSimulator := mkSimulator zeroCos noParams

/-- A huge DC voltage: the very first integration step escapes the trap. -/
def bigUParams : TrapParams := ⟨some 1e30, none, some 1⟩

def bigUSim : IonTrapSimulator := mkSimulator zeroCos bigUParams

/-- A low drive frequency making `|q_x|` far beyond the `0.908` threshold. -/
def bigVParams : TrapParams := ⟨none, some 1, some 1⟩

/-! ## Helper lemmas -/

/-- Absolute value as a conditional, for evaluating concrete runs. -/
theorem abs_ite (a : ℚ) : |a| = if 0 ≤ a then a else -a := by
  split
  · exact abs_of_nonneg (by assumption)
  · exact abs_of_neg (lt_of_not_le (by assumption))

theorem markLastUnstable_concat (l : List TrajectoryPoint) (p : TrajectoryPoint) :
    markLastUnstable (l ++ [p]) = l ++ [{ p with stable := false }] := by
  induction l with
  | nil => rfl
  | cons a l ih =>
    cases l with
    | nil => rfl
    | cons b l => simpa [markLastUnstable] using ih

theorem bodyStep_t (s : IonTrapSimulator) (dt : ℚ) (k : Kin) :
    (bodyStep s dt k).t = k.t + dt := rfl

theorem iterate_bodyStep_t (s : IonTrapSimulator) (dt : ℚ) (k : Kin) :
    ∀ n : ℕ, ((bodyStep s dt)^[n] k).t = k.t + n * dt := by
  intro n
  induction n generalizing k with
  | zero => simp
  | succ n ih =>
    rw [Function.iterate_succ_apply, ih, bodyStep_t]
    push_cast
    ring

/-- Scaling the escape test from meters to recorded millimeters. -/
theorem r0_scaled_lt (a : ℚ) : r0 * 1e3 < |a * 1e3| ↔ r0 < |a| := by
  rw [abs_mul, abs_of_pos (show (0:ℚ) < 1e3 by norm_num)]
  constructor
  · intro h; exact lt_of_mul_lt_mul_right h (by norm_num)
  · intro h; exact (mul_lt_mul_right (by norm_num)).mpr h

/-- The recorded point of a step escapes (in mm) iff the loop's escape
condition holds for the step's kinematic state (in meters). -/
theorem escapedPoint_record (k' : Kin) (t' : ℚ) (b : Bool) :
    escapedPoint ⟨t', k'.x * 1e3, k'.y * 1e3, b⟩ ↔ (|k'.x| > r0 ∨ |k'.y| > r0) := by
  unfold escapedPoint
  simp only [gt_iff_lt]
  rw [r0_scaled_lt, r0_scaled_lt]

/-! ## Master lemmas about the integration loop -/

/-- Shape of the loop output: the incoming trajectory is a prefix; the `i`-th
newly recorded point carries the pre-advance time of the `i`-th kinematic
state and the post-update position of the `(i+1)`-st; at least one point is
recorded whenever fuel remains and the guard holds. -/
theorem simLoop_points (s : IonTrapSimulator) (t_max dt : ℚ) :
    ∀ (fuel : ℕ) (k : Kin) (acc : List TrajectoryPoint),
      ∃ news, (simLoop s t_max dt fuel k acc).1 = acc ++ news ∧
        (∀ i (h : i < news.length),
          (news.get ⟨i, h⟩).t = ((bodyStep s dt)^[i] k).t * 1e6 ∧
          (news.get ⟨i, h⟩).x = ((bodyStep s dt)^[i + 1] k).x * 1e3 ∧
          (news.get ⟨i, h⟩).y = ((bodyStep s dt)^[i + 1] k).y * 1e3) ∧
        (0 < fuel → k.t < t_max → news ≠ []) := by
  intro fuel
  induction fuel with
  | zero =>
    intro k acc
    exact ⟨[], by simp [simLoop], by simp, by simp⟩
  | succ fuel ih =>
    intro k acc
    by_cases hg : k.t < t_max
    · rw [simLoop, if_pos hg]
      by_cases hesc : |(bodyStep s dt k).x| > r0 ∨ |(bodyStep s dt k).y| > r0
      · rw [if_pos hesc]
        refine ⟨[⟨k.t * 1e6, (bodyStep s dt k).x * 1e3, (bodyStep s dt k).y * 1e3,
          false⟩], ?_, ?_, by simp⟩
        · simp [markLastUnstable_concat]
        · intro i h
          have hi : i = 0 := by simpa using Nat.lt_one_iff.mp (by simpa using h)
          subst hi
          refine ⟨by simp, by simp, by simp⟩
      · rw [if_neg hesc]
        obtain ⟨news, h1, h2, _⟩ := ih (bodyStep s dt k)
          (acc ++ [⟨k.t * 1e6, (bodyStep s dt k).x * 1e3, (bodyStep s dt k).y * 1e3, true⟩])
        refine ⟨⟨k.t * 1e6, (bodyStep s dt k).x * 1e3, (bodyStep s dt k).y * 1e3,
          true⟩ :: news, by simpa using h1, ?_, by simp⟩
        intro i h
        match i with
        | 0 => exact ⟨by simp, by simp, by simp⟩
        | i + 1 =>
          have h' : i < news.length := by simpa using h
          obtain ⟨ht, hx, hy⟩ := h2 i h'
          refine ⟨?_, ?_, ?_⟩
          · simpa [Function.iterate_succ_apply] using ht
          · simpa [Function.iterate_succ_apply] using hx
          · simpa [Function.iterate_succ_apply] using hy
    · rw [simLoop, if_neg hg]
      exact ⟨[], by simp, by simp, fun _ h => absurd h hg⟩

theorem getD_eq_get {α : Type} [Inhabited α] (l : List α) (n : ℕ) (d : α)
    (h : n < l.length) : l.getD n d = l.get ⟨n, h⟩ := by
  simp [List.getD_eq_getElem?_getD, List.getElem?_eq_getElem h]

/-- Reading a concatenation `l ++ [p]` at index `length - 2` for nonempty `l`
lands on the last element of `l`, independently of the default. -/
theorem getD_concat_pred {α : Type} [Inhabited α] (l : List α) (p d : α)
    (h : l ≠ []) :
    (l ++ [p]).getD ((l ++ [p]).length - 2) d =
      l.get ⟨l.length - 1, Nat.sub_lt (List.length_pos.mpr h) one_pos⟩ := by
  have hlen : (l ++ [p]).length = l.length + 1 := by simp
  rw [hlen]
  have hidx : l.length + 1 - 2 = l.length - 1 := by omega
  rw [hidx]
  have hlt : l.length - 1 < l.length := Nat.sub_lt (List.length_pos.mpr h) one_pos
  rw [List.getD_append _ _ _ _ hlt, getD_eq_get _ _ _ hlt]

/-- Stability flags of the loop output: provided every incoming point is
stable and in-bounds, all points but the last are stable, the last point is
unstable exactly when it escaped, and the returned `lastStablePosition` is
`none` exactly when every point is stable. -/
theorem simLoop_flags (s : IonTrapSimulator) (t_max dt : ℚ) :
    ∀ (fuel : ℕ) (k : Kin) (acc : List TrajectoryPoint),
      (∀ q ∈ acc, q.stable = true ∧ ¬ escapedPoint q) →
      (∀ q ∈ (simLoop s t_max dt fuel k acc).1.dropLast, q.stable = true) ∧
      (∀ q, (simLoop s t_max dt fuel k acc).1.getLast? = some q →
        (q.stable = false ↔ escapedPoint q)) ∧
      ((simLoop s t_max dt fuel k acc).2 = none ↔
        ∀ q ∈ (simLoop s t_max dt fuel k acc).1, q.stable = true) := by
  intro fuel
  induction fuel with
  | zero =>
    intro k acc hacc
    rw [simLoop]
    refine ⟨fun q hq => (hacc q (List.dropLast_subset _ hq)).1, ?_, ?_⟩
    · intro q hq
      obtain ⟨hs, hne⟩ := hacc q (List.mem_of_mem_getLast? hq)
      exact iff_of_false (by simp [hs]) hne
    · exact iff_of_true rfl fun q hq => (hacc q hq).1
  | succ fuel ih =>
    intro k acc hacc
    by_cases hg : k.t < t_max
    · rw [simLoop, if_pos hg]
      by_cases hesc : |(bodyStep s dt k).x| > r0 ∨ |(bodyStep s dt k).y| > r0
      · rw [if_pos hesc]
        simp only [markLastUnstable_concat]
        refine ⟨?_, ?_, ?_⟩
        · intro q hq
          rw [List.dropLast_concat] at hq
          exact (hacc q hq).1
        · intro q hq
          rw [List.getLast?_concat] at hq
          cases Option.some.injEq .. ▸ hq
          exact iff_of_true rfl ((escapedPoint_record _ _ _).mpr hesc)
        · refine iff_of_false (by simp) ?_
          intro hall
          have := hall _ (List.mem_append_right _ (List.mem_singleton_self _))
          simp at this
      · rw [if_neg hesc]
        refine ih (bodyStep s dt k) _ ?_
        intro q hq
        rcases List.mem_append.mp hq with h | h
        · exact hacc q h
        · rw [List.mem_singleton] at h
          subst h
          exact ⟨rfl, (escapedPoint_record _ _ _).not.mpr hesc⟩
    · rw [simLoop, if_neg hg]
      refine ⟨fun q hq => (hacc q (List.dropLast_subset _ hq)).1, ?_, ?_⟩
      · intro q hq
        obtain ⟨hs, hne⟩ := hacc q (List.mem_of_mem_getLast? hq)
        exact iff_of_false (by simp [hs]) hne
      · exact iff_of_true rfl fun q hq => (hacc q hq).1

/-- When the loop reports an escape position, it is the `{x, y}` view of the
trajectory entry at index `length - 2` (index `0` when only one point exists,
by truncated subtraction, matching `Math.max(0, length - 2)`). -/
theorem simLoop_lastStable (s : IonTrapSimulator) (t_max dt : ℚ) :
    ∀ (fuel : ℕ) (k : Kin) (acc : List TrajectoryPoint) (pos : ℚ × ℚ),
      (simLoop s t_max dt fuel k acc).2 = some pos →
      (simLoop s t_max dt fuel k acc).1 ≠ [] ∧
      pos = posOf ((simLoop s t_max dt fuel k acc).1.getD
        ((simLoop s t_max dt fuel k acc).1.length - 2) default) := by
  intro fuel
  induction fuel with
  | zero =>
    intro k acc pos h
    rw [simLoop] at h ⊢
    cases h
  | succ fuel ih =>
    intro k acc pos h
    by_cases hg : k.t < t_max
    · rw [simLoop, if_pos hg] at h ⊢
      by_cases hesc : |(bodyStep s dt k).x| > r0 ∨ |(bodyStep s dt k).y| > r0
      · rw [if_pos hesc] at h ⊢
        simp only [markLastUnstable_concat] at h ⊢
        have hpos := (Option.some.injEq .. ▸ h).symm
        refine ⟨by simp, ?_⟩
        cases acc with
        | nil => simpa [posOf] using hpos
        | cons a l =>
          rw [hpos, getD_concat_pred _ _ _ (by simp),
            getD_concat_pred _ _ _ (by simp)]
      · rw [if_neg hesc] at h ⊢
        exact ih _ _ _ h
    · rw [simLoop, if_neg hg] at h ⊢
      cases h

/-- The loop never reads the simulator's `lastStablePosition` field. -/
theorem simLoop_lastStable_free (s : IonTrapSimulator) (p : Option (ℚ × ℚ))
    (t_max dt : ℚ) :
    ∀ (fuel : ℕ) (k : Kin) (acc : List TrajectoryPoint),
      simLoop { s with lastStablePosition := p } t_max dt fuel k acc =
      simLoop s t_max dt fuel k acc := by
  intro fuel
  induction fuel with
  | zero => intro k acc; rfl
  | succ fuel ih =>
    intro k acc
    have hb : bodyStep { s with lastStablePosition := p } dt k = bodyStep s dt k := rfl
    rw [simLoop, simLoop, hb]
    by_cases hg : k.t < t_max
    · rw [if_pos hg, if_pos hg]
      by_cases hesc : |(bodyStep s dt k).x| > r0 ∨ |(bodyStep s dt k).y| > r0
      · rw [if_pos hesc, if_pos hesc]
      · rw [if_neg hesc, if_neg hesc, ih]
    · rw [if_neg hg, if_neg hg]

/-- Length of the loop output when `t_max` is an exact multiple `M * dt` of
the step and the current time is `j * dt`: bounded by `min fuel (M - j)` new
points, with equality when no escape occurs. -/
theorem simLoop_length (s : IonTrapSimulator) (t_max dt : ℚ) (hdt : 0 < dt)
    (M : ℕ) (hM : t_max = M * dt) :
    ∀ (fuel j : ℕ) (k : Kin) (acc : List TrajectoryPoint), k.t = j * dt →
      (simLoop s t_max dt fuel k acc).1.length ≤ acc.length + min fuel (M - j) ∧
      ((simLoop s t_max dt fuel k acc).2 = none →
        (simLoop s t_max dt fuel k acc).1.length = acc.length + min fuel (M - j)) := by
  intro fuel
  induction fuel with
  | zero =>
    intro j k acc ht
    rw [simLoop]
    simp
  | succ fuel ih =>
    intro j k acc ht
    have hguard : k.t < t_max ↔ j < M := by
      rw [ht, hM, mul_lt_mul_right hdt, Nat.cast_lt]
    by_cases hjM : j < M
    · have hg : k.t < t_max := hguard.mpr hjM
      rw [simLoop, if_pos hg]
      by_cases hesc : |(bodyStep s dt k).x| > r0 ∨ |(bodyStep s dt k).y| > r0
      · rw [if_pos hesc]
        simp only [markLastUnstable_concat]
        constructor
        · rw [List.length_append]
          simp only [List.length_singleton]
          omega
        · intro h
          simp at h
      · rw [if_neg hesc]
        have hstep : (bodyStep s dt k).t = (j + 1 : ℕ) * dt := by
          rw [bodyStep_t, ht]
          push_cast
          ring
        obtain ⟨h1, h2⟩ := ih (j + 1) (bodyStep s dt k) _ hstep
        have hlen : (acc ++ [(⟨k.t * 1e6, (bodyStep s dt k).x * 1e3,
            (bodyStep s dt k).y * 1e3, true⟩ : TrajectoryPoint)]).length =
            acc.length + 1 := by simp
        rw [hlen] at h1
        exact ⟨by omega, fun h => by have := h2 h; rw [hlen] at this; omega⟩
    · have hg : ¬ k.t < t_max := fun h => hjM (hguard.mp h)
      rw [simLoop, if_neg hg]
      have : M - j = 0 := by omega
      simp [this]

/-- With both voltages zero the forces vanish, so a run started from rest
leaves the position unchanged at every step. -/
theorem bodyStep_zero_voltage (s : IonTrapSimulator) (hU : s.U = 0)
    (hV : s.V = 0) (dt x y t : ℚ) :
    bodyStep s dt ⟨x, y, 0, 0, t⟩ = ⟨x, y, 0, 0, t + dt⟩ := by
  simp [bodyStep, calculateForceX, calculateForceY, hU, hV]

/-- A zero-voltage run from rest inside the trap never escapes. -/
theorem simLoop_zero_voltage_no_escape (s : IonTrapSimulator) (hU : s.U = 0)
    (hV : s.V = 0) (t_max dt : ℚ) :
    ∀ (fuel : ℕ) (x y t : ℚ) (acc : List TrajectoryPoint),
      |x| ≤ r0 → |y| ≤ r0 →
      (simLoop s t_max dt fuel ⟨x, y, 0, 0, t⟩ acc).2 = none := by
  intro fuel
  induction fuel with
  | zero =>
    intro x y t acc hx hy
    rw [simLoop]
  | succ fuel ih =>
    intro x y t acc hx hy
    by_cases hg : (Kin.mk x y 0 0 t).t < t_max
    · rw [simLoop, if_pos hg]
      have hb := bodyStep_zero_voltage s hU hV dt x y t
      rw [hb]
      have hesc : ¬ (|(Kin.mk x y 0 0 (t + dt)).x| > r0 ∨
          |(Kin.mk x y 0 0 (t + dt)).y| > r0) := by
        simp only [not_or, not_lt]
        exact ⟨hx, hy⟩
      rw [if_neg hesc]
      exact ih x y (t + dt) _ hx hy
    · rw [simLoop, if_neg hg]

/-- The zero-voltage one-step run, evaluated. -/
theorem baseRun_eval : (simulate baseSim noIC 1 1).1 = [⟨0, 1, 1, true⟩] := by
  norm_num [simulate, simFuel, simLoop, bodyStep, initKin, jsOr, baseSim, noIC,
    noParams, zeroCos, mkSimulator, calculateForceX, calculateForceY,
    calculateAx, calculateQx, e, m, r0, abs_ite]

/-! ## Claim theorems -/

/-- C1: every run of `simulate` with `t_max > 0` returns a non-empty
trajectory in which every point before the last has `stable = true` (so the
run halts immediately at an unstable point and no point follows one with
`stable = false`), and the final point has `stable = false` iff that step
escaped the boundary (`|x| > r0` or `|y| > r0`, stated in recorded
millimeters via `escapedPoint`). -/
theorem c1_stable_flag_invariant (s : IonTrapSimulator) (ic : InitialConditions)
    (t_max dt : ℚ) (htm : 0 < t_max) :
    (simulate s ic t_max dt).1 ≠ [] ∧
    (∀ q ∈ (simulate s ic t_max dt).1.dropLast, q.stable = true) ∧
    (∀ q, (simulate s ic t_max dt).1.getLast? = some q →
      (q.stable = false ↔ escapedPoint q)) := by
  have hflags := simLoop_flags s t_max dt (simFuel t_max dt) (initKin ic) []
    (by simp)
  obtain ⟨news, h1, -, h3⟩ :=
    simLoop_points s t_max dt (simFuel t_max dt) (initKin ic) []
  refine ⟨?_, hflags.1, hflags.2.1⟩
  have hne : news ≠ [] := h3 (Nat.succ_pos _) htm
  show (simLoop s t_max dt (simFuel t_max dt) (initKin ic) []).1 ≠ []
  rw [h1]
  simpa using hne

/-- Witness for C1 at the zero-voltage one-step run. -/
theorem c1_witness :
    (0 : ℚ) < 1 ∧
    (simulate baseSim noIC 1 1).1 ≠ [] ∧
    (∀ q ∈ (simulate baseSim noIC 1 1).1.dropLast, q.stable = true) ∧
    (∀ q, (simulate baseSim noIC 1 1).1.getLast? = some q →
      (q.stable = false ↔ escapedPoint q)) :=
  ⟨by norm_num, c1_stable_flag_invariant baseSim noIC 1 1 (by norm_num)⟩

/-- C2: for every run of `simulate` with `dt > 0`, the `i`-th recorded point
carries time `i * dt` converted to microseconds, and the recorded times are
strictly increasing. -/
theorem c2_time_values (s : IonTrapSimulator) (ic : InitialConditions)
    (t_max dt : ℚ) (hdt : 0 < dt) :
    (∀ i (h : i < (simulate s ic t_max dt).1.length),
      ((simulate s ic t_max dt).1.get ⟨i, h⟩).t = i * dt * 1e6) ∧
    List.Pairwise (fun a b : TrajectoryPoint => a.t < b.t)
      (simulate s ic t_max dt).1 := by
  obtain ⟨news, h1, h2, -⟩ :=
    simLoop_points s t_max dt (simFuel t_max dt) (initKin ic) []
  have hL : (simulate s ic t_max dt).1 = news := by simpa using h1
  subst hL
  have hidx : ∀ i (h : i < (simulate s ic t_max dt).1.length),
      ((simulate s ic t_max dt).1.get ⟨i, h⟩).t = i * dt * 1e6 := by
    intro i h
    rw [(h2 i h).1, iterate_bodyStep_t]
    simp [initKin]
  refine ⟨hidx, ?_⟩
  rw [List.pairwise_iff_get]
  intro i j hij
  have hi := hidx i.1 i.2
  have hj := hidx j.1 j.2
  simp only [Fin.eta] at hi hj
  rw [hi, hj, mul_lt_mul_right (show (0:ℚ) < 1e6 by norm_num),
    mul_lt_mul_right hdt, Nat.cast_lt]
  exact hij

/-- Witness for C2 at the zero-voltage one-step run, instantiated at index 0. -/
theorem c2_witness :
    (0 : ℚ) < 1 ∧
    ((simulate baseSim noIC 1 1).1.get
      ⟨0, by rw [baseRun_eval]; norm_num⟩).t = (0 : ℕ) * 1 * 1e6 ∧
    List.Pairwise (fun a b : TrajectoryPoint => a.t < b.t)
      (simulate baseSim noIC 1 1).1 :=
  ⟨by norm_num,
   (c2_time_values baseSim noIC 1 1 (by norm_num)).1 0 (by rw [baseRun_eval]; norm_num),
   (c2_time_values baseSim noIC 1 1 (by norm_num)).2⟩

/-- C3: `lastStablePosition` after a run does not depend on its value before
the run (it is reset at the start); it is `none` iff the run recorded no
unstable point (no escape); and when it is `some pos`, `pos` is the `{x, y}`
view of the trajectory entry at index `length - 2` (index 0 when the escaping
point is the only point, by truncated subtraction). -/
theorem c3_lastStablePosition (s : IonTrapSimulator) (ic : InitialConditions)
    (t_max dt : ℚ) (p : Option (ℚ × ℚ)) :
    ((simulate { s with lastStablePosition := p } ic t_max dt).2.lastStablePosition =
      (simulate s ic t_max dt).2.lastStablePosition) ∧
    ((simulate s ic t_max dt).2.lastStablePosition = none ↔
      ∀ q ∈ (simulate s ic t_max dt).1, q.stable = true) ∧
    (∀ pos, (simulate s ic t_max dt).2.lastStablePosition = some pos →
      (simulate s ic t_max dt).1 ≠ [] ∧
      pos = posOf ((simulate s ic t_max dt).1.getD
        ((simulate s ic t_max dt).1.length - 2) default)) := by
  refine ⟨?_, ?_, ?_⟩
  · exact congrArg Prod.snd
      (simLoop_lastStable_free s p t_max dt (simFuel t_max dt) (initKin ic) [])
  · exact (simLoop_flags s t_max dt (simFuel t_max dt) (initKin ic) []
      (by simp)).2.2
  · exact simLoop_lastStable s t_max dt (simFuel t_max dt) (initKin ic) []

/-- Witness for C3 at a run that escapes on its first step. -/
theorem c3_witness :
    ∃ pos, (simulate bigUSim noIC 1 1).2.lastStablePosition = some pos ∧
      (simulate bigUSim noIC 1 1).1 ≠ [] ∧
      pos = posOf ((simulate bigUSim noIC 1 1).1.getD
        ((simulate bigUSim noIC 1 1).1.length - 2) default) := by
  rcases hsome : (simulate bigUSim noIC 1 1).2.lastStablePosition with _ | pos
  · exfalso
    have hval := hsome
    rw [show (simulate bigUSim noIC 1 1).2.lastStablePosition = some
        (-(20027207874999999999999999999999999999999989546113 / 10453887),
          20027207875000000000000000000000000000000010453887 / 10453887) from by
      norm_num [simulate, simFuel, simLoop, bodyStep, initKin, jsOr, bigUSim,
        noIC, bigUParams, zeroCos, mkSimulator, calculateForceX,
        calculateForceY, calculateAx, calculateQx, e, m, r0, abs_ite,
        markLastUnstable, posOf]] at hval
    exact Option.noConfusion hval
  · exact ⟨pos, rfl,
      (c3_lastStablePosition bigUSim noIC 1 1 none).2.2 pos hsome⟩

/-- C4: whenever `|q_x| ≥ 0.908` (or `|a_x| ≥ 0.237`), the analytic test
alone forces `isStable` to return `false`, whatever `lastStablePosition`
holds (no escape recorded, or any recorded position). -/
theorem c4_analytic_forces_unstable (c : ℚ → ℚ) (p : TrapParams)
    (pos : Option (ℚ × ℚ))
    (h : 0.908 ≤ |(mkSimulator c p).qx| ∨ 0.237 ≤ |(mkSimulator c p).ax|) :
    isStable { mkSimulator c p with lastStablePosition := pos } = false := by
  rcases h with h | h
  · have hq : ¬ (|(mkSimulator c p).qx| < 0.908) := not_lt.mpr h
    simp [isStable, hq]
  · have ha : ¬ (|(mkSimulator c p).ax| < 0.237) := not_lt.mpr h
    simp [isStable, ha]

/-- Witness for C4: a drive of 1 rad/s puts `|q_x|` far beyond `0.908`, and
`isStable` is `false` even with a benign recorded position `(0, 0)`. -/
theorem c4_witness :
    ((0.908 : ℚ) ≤ |(mkSimulator zeroCos bigVParams).qx| ∨
      (0.237 : ℚ) ≤ |(mkSimulator zeroCos bigVParams).ax|) ∧
    isStable { mkSimulator zeroCos bigVParams with
      lastStablePosition := some (0, 0) } = false :=
  ⟨Or.inl (by norm_num [mkSimulator, jsOr, bigVParams, calculateQx, e, m, r0,
      abs_ite]),
   c4_analytic_forces_unstable zeroCos bigVParams (some (0, 0))
    (Or.inl (by norm_num [mkSimulator, jsOr, bigVParams, calculateQx, e, m, r0,
      abs_ite]))⟩

/-- C5: `simulate` is deterministic.  The embedding of the run is a pure
function of the trap parameters, the cosine model, the initial conditions,
`t_max` and `dt` (the source reads no other state and draws no randomness),
so two invocations on simulators constructed from the same parameters return
identical trajectories (same length, pointwise equal `t`, `x`, `y`,
`stable`) and identical final states. -/
theorem c5_deterministic (c : ℚ → ℚ) (p : TrapParams) (ic : InitialConditions)
    (t_max dt : ℚ) :
    simulate (mkSimulator c p) ic t_max dt =
      simulate (mkSimulator c p) ic t_max dt ∧
    (simulate (mkSimulator c p) ic t_max dt).1 =
      (simulate (mkSimulator c p) ic t_max dt).1 :=
  ⟨rfl, rfl⟩

/-- C6: under the presentation shell's fixed invocation
(`t_max = 2e-5`, `dt = 1e-8`) the loop terminates within 2000 steps, and a
run that records no escape returns exactly 2000 points. -/
theorem c6_fixed_window_steps (s : IonTrapSimulator) (ic : InitialConditions) :
    (simulate s ic 2e-5 1e-8).1.length ≤ 2000 ∧
    ((simulate s ic 2e-5 1e-8).2.lastStablePosition = none →
      (simulate s ic 2e-5 1e-8).1.length = 2000) := by
  have hfuel : simFuel (2e-5 : ℚ) (1e-8) = 2001 := by
    norm_num [simFuel]
  have h := simLoop_length s (2e-5) (1e-8) (by norm_num) 2000 (by norm_num)
    (simFuel (2e-5 : ℚ) (1e-8)) 0 (initKin ic) []
    (by simp [initKin])
  have hmin : min (simFuel (2e-5 : ℚ) (1e-8)) (2000 - 0) = 2000 := by
    rw [hfuel]
    omega
  rw [hmin] at h
  simpa using h

/-- Witness for C6: the zero-voltage run from rest records no escape and
returns exactly 2000 points. -/
theorem c6_witness :
    (simulate baseSim noIC 2e-5 1e-8).1.length ≤ 2000 ∧
    (simulate baseSim noIC 2e-5 1e-8).2.lastStablePosition = none ∧
    (simulate baseSim noIC 2e-5 1e-8).1.length = 2000 := by
  have h0 : (simulate baseSim noIC 2e-5 1e-8).2.lastStablePosition = none := by
    show (simLoop baseSim (2e-5) (1e-8) (simFuel (2e-5 : ℚ) (1e-8))
      (initKin noIC) []).2 = none
    have hik : initKin noIC = ⟨1e-3, 1e-3, 0, 0, 0⟩ := rfl
    rw [hik]
    exact simLoop_zero_voltage_no_escape baseSim rfl rfl (2e-5) (1e-8)
      _ 1e-3 1e-3 0 [] (by norm_num [r0, abs_ite]) (by norm_num [r0, abs_ite])
  exact ⟨(c6_fixed_window_steps baseSim noIC).1, h0,
    (c6_fixed_window_steps baseSim noIC).2 h0⟩

/-- C7: for every constructor input (including an absent or zero `omega`),
the constructed simulator's `omega` is nonzero, so the denominator
`m * r0² * omega²` of the coefficient formulas is nonzero; an absent or
zero `omega` is replaced by the default `1e6`.  (Construction, `simulate`
and `isStable` are total functions of the embedding: no error is raised.) -/
theorem c7_nonzero_omega (c : ℚ → ℚ) (p : TrapParams) :
    (mkSimulator c p).omega ≠ 0 ∧
    m * r0 * r0 * (mkSimulator c p).omega * (mkSimulator c p).omega ≠ 0 ∧
    (mkSimulator c { p with omega := none }).omega = 1e6 ∧
    (mkSimulator c { p with omega := some 0 }).omega = 1e6 := by
  have homega : (mkSimulator c p).omega ≠ 0 := by
    show jsOr p.omega 1e6 ≠ 0
    unfold jsOr
    rcases p.omega with _ | x
    · norm_num
    · dsimp only
      split
      · norm_num
      · assumption
  refine ⟨homega, ?_, by simp [mkSimulator, jsOr], by simp [mkSimulator, jsOr]⟩
  exact mul_ne_zero (mul_ne_zero (mul_ne_zero (mul_ne_zero
    (by norm_num [m]) (by norm_num [r0])) (by norm_num [r0])) homega) homega

/-- C8: the falsy-defaulting substitutes the default even for a
deliberately supplied zero: an explicit `x = 0` (resp. `y = 0`) initial
condition starts the integration from the default `1e-3` meters on that axis,
exactly as if the field were absent, and an explicit `omega = 0` constructs
the same simulator as an absent `omega` (with the default `1e6`). -/
theorem c8_zero_defaults (s : IonTrapSimulator) (c : ℚ → ℚ)
    (u v iy ix ivx ivy : Option ℚ) (t_max dt : ℚ) :
    (initKin ⟨some 0, iy, ivx, ivy⟩).x = 1e-3 ∧
    (initKin ⟨ix, some 0, ivx, ivy⟩).y = 1e-3 ∧
    simulate s ⟨some 0, iy, ivx, ivy⟩ t_max dt =
      simulate s ⟨none, iy, ivx, ivy⟩ t_max dt ∧
    simulate s ⟨ix, some 0, ivx, ivy⟩ t_max dt =
      simulate s ⟨ix, none, ivx, ivy⟩ t_max dt ∧
    mkSimulator c ⟨u, v, some 0⟩ = mkSimulator c ⟨u, v, none⟩ := by
  refine ⟨by simp [initKin, jsOr], by simp [initKin, jsOr], ?_, ?_, ?_⟩
  · have h : initKin ⟨some 0, iy, ivx, ivy⟩ = initKin ⟨none, iy, ivx, ivy⟩ := by
      simp [initKin, jsOr]
    simp only [simulate, h]
  · have h : initKin ⟨ix, some 0, ivx, ivy⟩ = initKin ⟨ix, none, ivx, ivy⟩ := by
      simp [initKin, jsOr]
    simp only [simulate, h]
  · simp [mkSimulator, jsOr]

/-- C9 counterexample: at the zero-voltage run with `dt = 1`, the first
recorded point (index `k = 0`) carries `t = 0`, not
`(k+1) * dt * 1e6 = 1e6`: the source records the trace point before
advancing `t`, contrary to the spec's step-rule ordering. -/
theorem c9_counterexample :
    ((simulate baseSim noIC 1 1).1.getD 0 default).t = 0 ∧
    ((simulate baseSim noIC 1 1).1.getD 0 default).t ≠ ((0 : ℕ) + 1) * 1 * 1e6 := by
  rw [baseRun_eval]
  norm_num [List.getD]

/-- C9 (amended): within each step the trace point is recorded before `t` is
advanced, so the `k`-th recorded point carries `k * dt` in microseconds, and
its recorded position is the position after the velocity and position
updates of that step (the `(k+1)`-st kinematic state), in millimeters. -/
theorem c9_record_before_advance (s : IonTrapSimulator)
    (ic : InitialConditions) (t_max dt : ℚ) :
    ∀ i (h : i < (simulate s ic t_max dt).1.length),
      ((simulate s ic t_max dt).1.get ⟨i, h⟩).t = i * dt * 1e6 ∧
      ((simulate s ic t_max dt).1.get ⟨i, h⟩).x =
        ((bodyStep s dt)^[i + 1] (initKin ic)).x * 1e3 ∧
      ((simulate s ic t_max dt).1.get ⟨i, h⟩).y =
        ((bodyStep s dt)^[i + 1] (initKin ic)).y * 1e3 := by
  obtain ⟨news, h1, h2, -⟩ :=
    simLoop_points s t_max dt (simFuel t_max dt) (initKin ic) []
  have hL : (simulate s ic t_max dt).1 = news := by simpa using h1
  subst hL
  intro i h
  refine ⟨?_, (h2 i h).2.1, (h2 i h).2.2⟩
  rw [(h2 i h).1, iterate_bodyStep_t]
  simp [initKin]

/-- Witness for C9 (amended) at the zero-voltage one-step run, index 0. -/
theorem c9_witness :
    ((simulate baseSim noIC 1 1).1.get
      ⟨0, by rw [baseRun_eval]; norm_num⟩).t = (0 : ℕ) * 1 * 1e6 ∧
    ((simulate baseSim noIC 1 1).1.get
      ⟨0, by rw [baseRun_eval]; norm_num⟩).x =
      ((bodyStep baseSim 1)^[0 + 1] (initKin noIC)).x * 1e3 :=
  ⟨(c9_record_before_advance baseSim noIC 1 1 0 (by rw [baseRun_eval]; norm_num)).1,
   (c9_record_before_advance baseSim noIC 1 1 0 (by rw [baseRun_eval]; norm_num)).2.1⟩

/-- C10: a freshly constructed simulator has `lastStablePosition = none`, so
`isStable` equals the analytic Mathieu test alone — and the mirrored `y`
test is equivalent since `a_y = -a_x`, `q_y = -q_x`, leaving
`|q_x| < 0.908 ∧ |a_x| < 0.237`; after a run that recorded no escape,
`isStable` coincides with the freshly constructed value. -/
theorem c10_fresh_analytic (c : ℚ → ℚ) (p : TrapParams) :
    (mkSimulator c p).lastStablePosition = none ∧
    (isStable (mkSimulator c p) = true ↔
      (|(mkSimulator c p).qx| < 0.908 ∧ |(mkSimulator c p).ax| < 0.237)) ∧
    (∀ ic t_max dt,
      (simulate (mkSimulator c p) ic t_max dt).2.lastStablePosition = none →
      isStable (simulate (mkSimulator c p) ic t_max dt).2 =
        isStable (mkSimulator c p)) := by
  refine ⟨rfl, ?_, ?_⟩
  · simp only [isStable, mkSimulator, Bool.and_eq_true, decide_eq_true_eq,
      abs_neg]
    tauto
  · intro ic t_max dt h
    have hself : (simulate (mkSimulator c p) ic t_max dt).2 =
        { mkSimulator c p with lastStablePosition :=
          (simulate (mkSimulator c p) ic t_max dt).2.lastStablePosition } := rfl
    rw [hself, h]
    rfl

/-- Witness for C10: the zero-voltage run records no escape, and `isStable`
after it equals the freshly constructed value. -/
theorem c10_witness :
    (mkSimulator zeroCos noParams).lastStablePosition = none ∧
    (simulate (mkSimulator zeroCos noParams) noIC 1 1).2.lastStablePosition
      = none ∧
    isStable (simulate (mkSimulator zeroCos noParams) noIC 1 1).2 =
      isStable (mkSimulator zeroCos noParams) := by
  have h0 : (simulate (mkSimulator zeroCos noParams) noIC 1 1).2.lastStablePosition
      = none := by
    show (simLoop (mkSimulator zeroCos noParams) 1 1 (simFuel 1 1)
      (initKin noIC) []).2 = none
    have hik : initKin noIC = ⟨1e-3, 1e-3, 0, 0, 0⟩ := rfl
    rw [hik]
    exact simLoop_zero_voltage_no_escape (mkSimulator zeroCos noParams) rfl rfl
      1 1 _ 1e-3 1e-3 0 [] (by norm_num [r0, abs_ite]) (by norm_num [r0, abs_ite])
  exact ⟨(c10_fresh_analytic zeroCos noParams).1, h0,
    (c10_fresh_analytic zeroCos noParams).2.2 noIC 1 1 h0⟩

end IonTrap
